import Mathlib

/-!
Verification of the archive-and-history pipeline of the job-application
builder (`src/main.py`), as a shallow embedding.  Pure string manipulation
(`create_shell_friendly_name`, archive folder naming) is embedded as Lean
functions on `String`; the history table is a list of rows; the data
mapping is an association list with Python-`dict` update semantics;
filesystem effects (moves, copies, existence checks) are reified as
explicit parameters and operation lists.
-/

namespace JobApp

/-- Fixed file names from the path definitions block of `main.py`
(relative to `BASE_DIR`). -/
def CONFIG_FILE : String := "config.yaml"

/-- `CONTENT_FILE = BASE_DIR / "application_text.txt"` in `main.py`:
the file whose contents are read wholesale into `data["content"]`. -/
def CONTENT_FILE : String := "application_text.txt"

/-- `HISTORY_FILE` name, relative to `BASE_DIR`. -/
def HISTORY_FILE : String := "application_history.csv"

/-- The membership test of the regex character class `[^a-zA-Z0-9_-]`
used in `create_shell_friendly_name`: `true` exactly on the characters the
`re.sub` keeps. -/
def isAllowedChar (c : Char) : Bool :=
  (('a' ≤ c && c ≤ 'z') || ('A' ≤ c && c ≤ 'Z') ||
   ('0' ≤ c && c ≤ '9') || c == '_' || c == '-')

/-- The per-character effect of
`text.replace(" ", "_").replace("/", "-")`: both patterns are single
characters, so the two sequential replaces act independently on each
character. -/
def replaceSpaceSlash (c : Char) : Char :=
  if c == ' ' then '_' else if c == '/' then '-' else c

/-- `create_shell_friendly_name` from `main.py`: replace spaces with
underscores and forward slashes with hyphens, then `re.sub` away every
character outside `[a-zA-Z0-9_-]`. -/
def create_shell_friendly_name (text : String) : String :=
  String.mk ((text.data.map replaceSpaceSlash).filter isAllowedChar)

/-- Python `str.lower()` as applied in `archive_results`: its argument is
always a sanitizer output, hence pure ASCII, where `lower()` maps each
character `A`-`Z` to its lowercase form and fixes everything else. -/
def pyLower (s : String) : String :=
  String.mk (s.data.map Char.toLower)

/-- Archive folder name computed by `archive_results`:
`f"{data_str}_{company}_{job}"` where company and job are the sanitized,
lowercased `company` / `job_title` values. -/
def archive_folder_name (dateStr company jobTitle : String) : String :=
  dateStr ++ "_" ++ pyLower (create_shell_friendly_name company)
          ++ "_" ++ pyLower (create_shell_friendly_name jobTitle)

/-- A filesystem operation performed by `archive_results`, with paths
relative to `BASE_DIR` (working files live in the template folder; the
target folder is under the applications folder). -/
inductive FileOp where
  | mkdir (dir : String)
  | move (src dst : String)
  | copy (src dst : String)
deriving DecidableEq

/-- The sequence of filesystem operations `archive_results` performs,
in source order: create the target folder; move the three compiled
artifacts; copy the config file and `BASE_DIR / "application_letter_text.txt"`;
finally, if `main.pdf` exists, move-and-rename it. -/
def archive_results_ops (dateStr companyRaw jobRaw : String)
    (mainExists : Bool) : List FileOp :=
  let company := pyLower (create_shell_friendly_name companyRaw)
  let job := pyLower (create_shell_friendly_name jobRaw)
  let folder := dateStr ++ "_" ++ company ++ "_" ++ job
  [FileOp.mkdir folder,
   FileOp.move "cv.pdf" (folder ++ "/cv.pdf"),
   FileOp.move "application_letter.pdf" (folder ++ "/application_letter.pdf"),
   FileOp.move "attachments.pdf" (folder ++ "/attachments.pdf"),
   FileOp.copy "config.yaml" (folder ++ "/config.yaml"),
   FileOp.copy "application_letter_text.txt"
     (folder ++ "/application_letter_text.txt")] ++
  (if mainExists then
    [FileOp.move "main.pdf"
      (folder ++ "/application_" ++ company ++ "_" ++ job ++ ".pdf")]
   else [])

/-- Helper: every character of a sanitized string passes `isAllowedChar`. -/
theorem mem_sanitized_allowed {s : String} {c : Char}
    (h : c ∈ (create_shell_friendly_name s).data) : isAllowedChar c = true := by
  simpa [create_shell_friendly_name] using List.of_mem_filter h

/-- Helper: `replaceSpaceSlash` fixes every allowed character (neither a
space nor a slash is in the allowed class). -/
theorem replaceSpaceSlash_of_allowed {c : Char}
    (h : isAllowedChar c = true) : replaceSpaceSlash c = c := by
  by_cases hs : c = ' '
  · subst hs; simp [isAllowedChar] at h
  · by_cases hf : c = '/'
    · subst hf; simp [isAllowedChar] at h
    · simp [replaceSpaceSlash, hs, hf]

/-- C3: the sanitizer first maps spaces to underscores and slashes to
hyphens, then removes everything outside `[A-Za-z0-9_-]`; every character
of its output lies in that class.  The example conjunct shows the replaced
characters are kept, not stripped. -/
theorem sanitizer_charset (s : String) :
    (∀ c ∈ (create_shell_friendly_name s).data, isAllowedChar c = true)
    ∧ (create_shell_friendly_name s).data
        = (s.data.map replaceSpaceSlash).filter isAllowedChar
    ∧ create_shell_friendly_name " a/b." = "_a-b" := by
  refine ⟨fun c hc => mem_sanitized_allowed hc, rfl, by decide⟩

/-- Closed witness for `sanitizer_charset` at the input `"x y/z!"`. -/
theorem sanitizer_charset_witness :
    (∀ c ∈ (create_shell_friendly_name "x y/z!").data, isAllowedChar c = true)
    ∧ (create_shell_friendly_name "x y/z!").data
        = (("x y/z!".data.map replaceSpaceSlash).filter isAllowedChar)
    ∧ create_shell_friendly_name " a/b." = "_a-b" :=
  sanitizer_charset "x y/z!"

/-- C9: the sanitizer is idempotent: sanitizing twice equals sanitizing
once, for every input string. -/
theorem sanitizer_idempotent (s : String) :
    create_shell_friendly_name (create_shell_friendly_name s)
      = create_shell_friendly_name s := by
  unfold create_shell_friendly_name
  congr 1
  have hmap : ((s.data.map replaceSpaceSlash).filter isAllowedChar).map
      replaceSpaceSlash = (s.data.map replaceSpaceSlash).filter isAllowedChar := by
    apply List.map_congr_left ?_ |>.trans (List.map_id _)
    intro c hc
    exact replaceSpaceSlash_of_allowed (List.of_mem_filter hc)
  rw [hmap, List.filter_eq_self.mpr]
  intro c hc
  exact List.of_mem_filter hc

/-- C4: the archive folder name for run date 2024-03-01, company
"Acme Corp" and job title "Senior Eng/Lead" is
`2024-03-01_acme_corp_senior_eng-lead`. -/
theorem archive_folder_name_example :
    archive_folder_name "2024-03-01" "Acme Corp" "Senior Eng/Lead"
      = "2024-03-01_acme_corp_senior_eng-lead" := by decide

/-- The source paths of the copy operations in a list of file
operations, in order. -/
def copySources : List FileOp → List String
  | [] => []
  | FileOp.copy src _ :: rest => src :: copySources rest
  | _ :: rest => copySources rest

/-- C2: what `archive_results` actually copies.  It does copy the
configuration file, and it copies a cover-letter text file — but that file
is `application_letter_text.txt`, which is NOT `CONTENT_FILE`
(`application_text.txt`), the file read wholesale into `data["content"]`:
no copy of `CONTENT_FILE` appears among the archive operations. -/
theorem archive_copies_mismatch :
    copySources (archive_results_ops "2024-03-01" "Acme Corp" "Senior Eng/Lead" true)
      = [CONFIG_FILE, "application_letter_text.txt"]
    ∧ "application_letter_text.txt" ≠ CONTENT_FILE
    ∧ CONTENT_FILE ∉
        copySources (archive_results_ops "2024-03-01" "Acme Corp" "Senior Eng/Lead" true) := by
  refine ⟨by decide, by decide, by decide⟩

/-- A row of the history table `application_history.csv`:
(date, ISO week, company, position). -/
structure HistoryRow where
  date : String
  week : Nat
  company : String
  position : String
deriving DecidableEq

/-- The duplicate test of `log_to_history`: does a row with this
(date, company, position) triple already exist? (`(df["date"] == date) &
(df["company"] == company) & (df["position"] == jobtitle)).any()`.) -/
def hasTriple (date company position : String) (table : List HistoryRow) : Bool :=
  table.any fun r =>
    r.date == date && r.company == company && r.position == position

/-- Number of rows of the table carrying the given
(date, company, position) triple. -/
def countTriple (date company position : String) (table : List HistoryRow) : Nat :=
  table.countP fun r =>
    r.date == date && r.company == company && r.position == position

/-- The pure table transformation of `log_to_history`: if a row with the
same (date, company, position) already exists the table is returned
unchanged; otherwise `df.loc[len(df)] = new_row` appends the new
(date, week, company, jobtitle) row at the end. -/
def log_to_history (date : String) (week : Nat) (company jobtitle : String)
    (table : List HistoryRow) : List HistoryRow :=
  if hasTriple date company jobtitle table then table
  else table ++ [⟨date, week, company, jobtitle⟩]

/-- The table invariant: no two rows share the same
(date, company, position) triple. -/
def tableInvariant (table : List HistoryRow) : Prop :=
  table.Pairwise fun r s =>
    ¬(r.date = s.date ∧ r.company = s.company ∧ r.position = s.position)

/-- Unfolding the duplicate test into propositional form. -/
theorem hasTriple_eq_false_iff {d c p : String} {t : List HistoryRow} :
    hasTriple d c p t = false ↔
      ∀ r ∈ t, ¬(r.date = d ∧ r.company = c ∧ r.position = p) := by
  simp [hasTriple, List.any_eq_true, Bool.and_eq_true, beq_iff_eq,
    not_and, List.eq_nil_iff_forall_not_mem]

/-- If a duplicate (date, company, position) row exists, `log_to_history`
returns the table unchanged. -/
theorem log_to_history_of_hasTriple {d : String} {w : Nat} {c p : String}
    {t : List HistoryRow} (h : hasTriple d c p t = true) :
    log_to_history d w c p t = t := by
  simp [log_to_history, h]

/-- If no duplicate exists, `log_to_history` appends the new row at the
end of the table. -/
theorem log_to_history_of_not_hasTriple {d : String} {w : Nat} {c p : String}
    {t : List HistoryRow} (h : hasTriple d c p t = false) :
    log_to_history d w c p t = t ++ [⟨d, w, c, p⟩] := by
  simp [log_to_history, h]

/-- After logging a triple, the duplicate test for that triple holds. -/
theorem hasTriple_log_to_history (d : String) (w : Nat) (c p : String)
    (t : List HistoryRow) :
    hasTriple d c p (log_to_history d w c p t) = true := by
  by_cases h : hasTriple d c p t = true
  · rw [log_to_history_of_hasTriple h]; exact h
  · rw [log_to_history_of_not_hasTriple (by simpa using h)]
    simp [hasTriple, List.any_append]

/-- A table satisfying the invariant holds at most one row with any given
(date, company, position) triple. -/
theorem countTriple_le_one {t : List HistoryRow} (hinv : tableInvariant t)
    (d c p : String) : countTriple d c p t ≤ 1 := by
  induction t with
  | nil => simp [countTriple]
  | cons r rs ih =>
    rw [tableInvariant, List.pairwise_cons] at hinv
    obtain ⟨hr, hrs⟩ := hinv
    rw [countTriple, List.countP_cons]
    by_cases hm : (r.date == d && r.company == c && r.position == p) = true
    · have hrd : r.date = d ∧ r.company = c ∧ r.position = p := by
        simpa [Bool.and_eq_true, beq_iff_eq, and_assoc] using hm
      have hz : rs.countP
          (fun s => s.date == d && s.company == c && s.position == p) = 0 := by
        rw [List.countP_eq_zero]
        intro s hs hsm
        have hsd : s.date = d ∧ s.company = c ∧ s.position = p := by
          simpa [Bool.and_eq_true, beq_iff_eq, and_assoc] using hsm
        exact hr s hs ⟨hrd.1.trans hsd.1.symm, hrd.2.1.trans hsd.2.1.symm,
          hrd.2.2.trans hsd.2.2.symm⟩
      rw [hz, if_pos hm]
    · rw [if_neg hm]
      have := ih hrs
      rw [countTriple] at this
      omega

/-- C1: `log_to_history` preserves the table invariant; logging the same
(date, company, position) twice leaves exactly one row with that triple;
and a triple differing in at least one field (and not already present) is
appended as a new row. -/
theorem log_to_history_invariant (d : String) (w w2 : Nat) (c p : String)
    (t : List HistoryRow) (hinv : tableInvariant t) :
    tableInvariant (log_to_history d w c p t)
    ∧ countTriple d c p
        (log_to_history d w2 c p (log_to_history d w c p t)) = 1
    ∧ (∀ d2 w3 c2 p2, ¬(d2 = d ∧ c2 = c ∧ p2 = p) →
        hasTriple d2 c2 p2 t = false →
        log_to_history d2 w3 c2 p2 (log_to_history d w c p t)
          = log_to_history d w c p t ++ [⟨d2, w3, c2, p2⟩]) := by
  have hinv1 : tableInvariant (log_to_history d w c p t) := by
    by_cases h : hasTriple d c p t = true
    · rwa [log_to_history_of_hasTriple h]
    · have h0 : hasTriple d c p t = false := by simpa using h
      rw [log_to_history_of_not_hasTriple h0]
      rw [tableInvariant, List.pairwise_append]
      refine ⟨hinv, by simp, ?_⟩
      intro a ha b hb
      simp at hb
      subst hb
      have := hasTriple_eq_false_iff.mp h0 a ha
      simpa using this
  refine ⟨hinv1, ?_, ?_⟩
  · rw [log_to_history_of_hasTriple (hasTriple_log_to_history d w c p t)]
    have hle := countTriple_le_one hinv1 d c p
    have hpos : 0 < countTriple d c p (log_to_history d w c p t) := by
      rw [countTriple, List.countP_pos_iff]
      have := hasTriple_log_to_history d w c p t
      simpa [hasTriple, List.any_eq_true] using this
    omega
  · intro d2 w3 c2 p2 hne h2
    apply log_to_history_of_not_hasTriple
    by_cases h : hasTriple d c p t = true
    · rwa [log_to_history_of_hasTriple h]
    · rw [log_to_history_of_not_hasTriple (by simpa using h)]
      rw [hasTriple, List.any_append]
      have e1 : hasTriple d2 c2 p2 t = false := h2
      rw [hasTriple] at e1
      rw [e1]
      simp [beq_iff_eq]
      intro hd hc
      intro hp
      exact hne ⟨hd.symm ▸ rfl, hc.symm ▸ rfl, hp.symm ▸ rfl⟩

/-- Closed witness for `log_to_history_invariant`: the empty table
satisfies the invariant; logging, re-logging, and logging a different
company behave as stated. -/
theorem log_to_history_invariant_witness :
    tableInvariant (log_to_history "2024-03-01" 9 "Acme" "Eng" [])
    ∧ countTriple "2024-03-01" "Acme" "Eng"
        (log_to_history "2024-03-01" 9 "Acme" "Eng"
          (log_to_history "2024-03-01" 9 "Acme" "Eng" [])) = 1
    ∧ (∀ d2 w3 c2 p2, ¬(d2 = "2024-03-01" ∧ c2 = "Acme" ∧ p2 = "Eng") →
        hasTriple d2 c2 p2 ([] : List HistoryRow) = false →
        log_to_history d2 w3 c2 p2
            (log_to_history "2024-03-01" 9 "Acme" "Eng" [])
          = log_to_history "2024-03-01" 9 "Acme" "Eng" []
              ++ [⟨d2, w3, c2, p2⟩]) :=
  log_to_history_invariant "2024-03-01" 9 9 "Acme" "Eng" []
    (by simp [tableInvariant])

/-- C10: frame property of `log_to_history`: when the duplicate check
fires the table is returned untouched; otherwise the result is exactly
the old table, rows unchanged and in order, with the single new row at
the end. -/
theorem log_to_history_frame (d : String) (w : Nat) (c p : String)
    (t : List HistoryRow) :
    (hasTriple d c p t = true → log_to_history d w c p t = t)
    ∧ (hasTriple d c p t = false →
        log_to_history d w c p t = t ++ [⟨d, w, c, p⟩]) :=
  ⟨fun h => log_to_history_of_hasTriple h,
   fun h => log_to_history_of_not_hasTriple h⟩

/-- Closed witness for `log_to_history_frame`: a one-row table, in the
duplicate case and in the fresh case. -/
theorem log_to_history_frame_witness :
    log_to_history "2024-03-01" 9 "Acme" "Eng"
        [⟨"2024-03-01", 9, "Acme", "Eng"⟩]
      = [⟨"2024-03-01", 9, "Acme", "Eng"⟩]
    ∧ log_to_history "2024-03-02" 9 "Acme" "Eng"
        [⟨"2024-03-01", 9, "Acme", "Eng"⟩]
      = [⟨"2024-03-01", 9, "Acme", "Eng"⟩, ⟨"2024-03-02", 9, "Acme", "Eng"⟩] :=
  ⟨(log_to_history_frame "2024-03-01" 9 "Acme" "Eng"
      [⟨"2024-03-01", 9, "Acme", "Eng"⟩]).1 (by decide),
   (log_to_history_frame "2024-03-02" 9 "Acme" "Eng"
      [⟨"2024-03-01", 9, "Acme", "Eng"⟩]).2 (by decide)⟩

/-- Observable outcome of one `log_to_history` call, matching the four
exits of the function: the missing-file early return, the duplicate skip,
a successful append, and the `except` branch that logs the error. -/
inductive LogOutcome where
  | skippedNoFile
  | skippedDuplicate
  | added
  | errorLogged (msg : String)
deriving DecidableEq

/-- `log_to_history` with its effects reified.  `fe` is
`HISTORY_FILE.exists()`; `rr` is the result of `pd.read_csv` (an
exception or a table); `wr` models `df.to_csv` on the new table.  The
result is an `Except`: an `Except.error` would mean an exception escaping
the function and aborting the run.  The body mirrors the source: early
return when the file is missing (writing nothing, hence never creating
the file), then a `try` block whose exception is caught and turned into
`LogOutcome.errorLogged`.  The second component is the table written to
`HISTORY_FILE`, `none` when no write happens. -/
def log_to_history_impl (fe : Bool) (rr : Except String (List HistoryRow))
    (wr : List HistoryRow → Except String Unit)
    (date : String) (week : Nat) (company jobtitle : String) :
    Except String (LogOutcome × Option (List HistoryRow)) :=
  if fe = false then Except.ok (LogOutcome.skippedNoFile, none)
  else
    match rr with
    | Except.error e => Except.ok (LogOutcome.errorLogged e, none)
    | Except.ok df =>
      if hasTriple date company jobtitle df then
        Except.ok (LogOutcome.skippedDuplicate, none)
      else
        let df2 := df ++ [⟨date, week, company, jobtitle⟩]
        match wr df2 with
        | Except.error e => Except.ok (LogOutcome.errorLogged e, none)
        | Except.ok _ => Except.ok (LogOutcome.added, some df2)

/-- C6: history logging never aborts the run: for every combination of
file existence, read result and write behavior, `log_to_history_impl`
returns `Except.ok` (no exception escapes); when the history file is
missing it warns and returns without writing (so the file is never
created); and a read error or a write error is caught and logged. -/
theorem log_to_history_never_aborts (fe : Bool)
    (rr : Except String (List HistoryRow))
    (wr : List HistoryRow → Except String Unit)
    (d : String) (w : Nat) (c p : String) :
    (∃ out, log_to_history_impl fe rr wr d w c p = Except.ok out)
    ∧ (fe = false → log_to_history_impl fe rr wr d w c p
        = Except.ok (LogOutcome.skippedNoFile, none))
    ∧ (∀ e, fe = true → rr = Except.error e →
        log_to_history_impl fe rr wr d w c p
          = Except.ok (LogOutcome.errorLogged e, none))
    ∧ (∀ t e, fe = true → rr = Except.ok t →
        hasTriple d c p t = false →
        wr (t ++ [⟨d, w, c, p⟩]) = Except.error e →
        log_to_history_impl fe rr wr d w c p
          = Except.ok (LogOutcome.errorLogged e, none)) := by
  refine ⟨?_, ?_, ?_, ?_⟩
  · cases fe with
    | false => exact ⟨_, rfl⟩
    | true =>
      cases rr with
      | error e => exact ⟨_, rfl⟩
      | ok t =>
        by_cases h : hasTriple d c p t
        · simp [log_to_history_impl, h]
        · rcases hw : wr (t ++ [⟨d, w, c, p⟩]) with e | u <;>
            simp [log_to_history_impl, h, hw]
  · intro h; subst h; rfl
  · intro e hfe hrr; subst hfe; subst hrr; rfl
  · intro t e hfe hrr hdup hw
    subst hfe; subst hrr
    simp [log_to_history_impl, hdup, hw]

/-- Closed witness for `log_to_history_never_aborts`: missing history
file on an always-failing reader and writer. -/
theorem log_to_history_never_aborts_witness :
    log_to_history_impl false (Except.error "parse error")
        (fun _ => Except.error "disk full") "2024-03-01" 9 "Acme" "Eng"
      = Except.ok (LogOutcome.skippedNoFile, none) :=
  (log_to_history_never_aborts false (Except.error "parse error")
    (fun _ => Except.error "disk full") "2024-03-01" 9 "Acme" "Eng").2.1 rfl

/-- A YAML-derived value held in the data mapping: strings, numbers,
lists, and nested mappings. -/
inductive Value where
  | str : String → Value
  | nat : Nat → Value
  | bool : Bool → Value
  | list : List Value → Value
  | map : List (String × Value) → Value

/-- The data mapping (a Python `dict` with string keys): an association
list whose keys are unique in any mapping produced by the YAML loader. -/
abbrev Dict := List (String × Value)

/-- `d.get(k)`: the value at the first entry with key `k`, if any (the
linear scan over the mapping). -/
def dictGet? : Dict → String → Option Value
  | [], _ => none
  | q :: rest, k => if q.1 == k then some q.2 else dictGet? rest k

/-- `d.get(k, default)`. -/
def dictGetD (m : Dict) (k : String) (v : Value) : Value :=
  (dictGet? m k).getD v

/-- `d[k] = v`: replace the value at the first entry with an existing
key in place, else append the new entry at the end (Python `dict`
insertion-order semantics). -/
def dictSet : Dict → String → Value → Dict
  | [], k, v => [(k, v)]
  | q :: rest, k, v =>
    if q.1 == k then (k, v) :: rest else q :: dictSet rest k v

/-- `d.update(other)`: set each entry of `other` in `d`, in order. -/
def dictUpdate (m other : Dict) : Dict :=
  other.foldl (fun acc q => dictSet acc q.1 q.2) m

/-- `(d.set k v).get k = v`. -/
theorem dictGet?_set_self (m : Dict) (k : String) (v : Value) :
    dictGet? (dictSet m k v) k = some v := by
  induction m with
  | nil => simp [dictSet, dictGet?]
  | cons q qs ih =>
    cases hq : (q.1 == k) with
    | true => simp [dictSet, dictGet?, hq]
    | false => simp [dictSet, dictGet?, hq, ih]

/-- `(d.set k v).get k2 = d.get k2` for `k2 ≠ k`. -/
theorem dictGet?_set_ne (m : Dict) (k k2 : String) (v : Value)
    (hne : k ≠ k2) :
    dictGet? (dictSet m k v) k2 = dictGet? m k2 := by
  have hb : (k == k2) = false := by simpa using hne
  induction m with
  | nil => simp [dictSet, dictGet?, hb]
  | cons q qs ih =>
    cases hq : (q.1 == k) with
    | true =>
      have hk : q.1 = k := by simpa using hq
      have hq2 : (q.1 == k2) = false := by simpa [hk] using hne
      simp [dictSet, dictGet?, hq, hb, hq2]
    | false => simp [dictSet, dictGet?, hq, ih]

/-- Updating with entries none of which is keyed `k` does not disturb the
lookup of `k`. -/
theorem dictGet?_update_not_mem (m2 : Dict) (m : Dict) (k : String)
    (h : ∀ q ∈ m2, q.1 ≠ k) :
    dictGet? (dictUpdate m m2) k = dictGet? m k := by
  induction m2 generalizing m with
  | nil => rfl
  | cons q qs ih =>
    rw [dictUpdate, List.foldl_cons]
    have step := ih (dictSet m q.1 q.2) fun r hr => h r (List.mem_cons_of_mem _ hr)
    rw [dictUpdate] at step
    rw [step, dictGet?_set_ne m q.1 k q.2 (h q (List.mem_cons_self _ _))]

/-- If the sub-mapping (with unique keys, as any YAML mapping has) binds
`k` to `v`, then after `d.update(sub)` the lookup of `k` yields `v`. -/
theorem dictGet?_update_mem (m2 : Dict) (m : Dict) (k : String) (v : Value)
    (hnd : (m2.map Prod.fst).Nodup)
    (hv : dictGet? m2 k = some v) :
    dictGet? (dictUpdate m m2) k = some v := by
  induction m2 generalizing m with
  | nil => simp [dictGet?] at hv
  | cons q qs ih =>
    rw [List.map_cons, List.nodup_cons] at hnd
    cases hq : (q.1 == k) with
    | true =>
      have hk : q.1 = k := by simpa using hq
      have hvq : q.2 = v := by
        simpa [dictGet?, hq] using hv
      rw [dictUpdate, List.foldl_cons]
      have hfresh : ∀ r ∈ qs, r.1 ≠ k := by
        intro r hr hrk
        apply hnd.1
        have hmem : r.1 ∈ qs.map Prod.fst := List.mem_map_of_mem Prod.fst hr
        rwa [hrk, ← hk] at hmem
      have step := dictGet?_update_not_mem qs (dictSet m q.1 q.2) k hfresh
      rw [dictUpdate] at step
      rw [step, hk, dictGet?_set_self, hvq]
    | false =>
      have hv2 : dictGet? qs k = some v := by
        simpa [dictGet?, hq] using hv
      rw [dictUpdate, List.foldl_cons]
      have step := ih (dictSet m q.1 q.2) hnd.2 hv2
      rw [dictUpdate] at step
      exact step

/-- The localization block of `main`: `lang = data.get("language", "de")`;
`lang_data = data.get(lang, {})`; `data.update(lang_data)`;
`data["lang"] = lang`; then `doc_lang` is set to `english` for `en`, to
`ngerman` for `de`, and left unset otherwise (the unknown language is
only logged).  A non-string `language` value or a non-mapping
language entry would make `data.update` raise, modelled as `none`. -/
def main_localize (data : Dict) : Option Dict :=
  match dictGetD data "language" (Value.str "de") with
  | Value.str lang =>
    match dictGetD data lang (Value.map []) with
    | Value.map langData =>
      let d1 := dictSet (dictUpdate data langData) "lang" (Value.str lang)
      some (if lang == "en" then dictSet d1 "doc_lang" (Value.str "english")
            else if lang == "de" then dictSet d1 "doc_lang" (Value.str "ngerman")
            else d1)
    | _ => none
  | _ => none

/-- C7: with `language: en` and an `en` sub-mapping binding
`company: "Acme"`, the resolved data mapping's top-level `company` is
`"Acme"` and `doc_lang` is `"english"`; with `language: de`, `doc_lang`
is `"ngerman"`. -/
theorem localization_merge (data m : Dict)
    (h1 : dictGet? data "language" = some (Value.str "en"))
    (h2 : dictGet? data "en" = some (Value.map m))
    (hnd : (m.map Prod.fst).Nodup)
    (h3 : dictGet? m "company" = some (Value.str "Acme"))
    (data2 m2 : Dict)
    (g1 : dictGet? data2 "language" = some (Value.str "de"))
    (g2 : dictGet? data2 "de" = some (Value.map m2)) :
    (∃ d, main_localize data = some d
      ∧ dictGet? d "company" = some (Value.str "Acme")
      ∧ dictGet? d "doc_lang" = some (Value.str "english"))
    ∧ (∃ e, main_localize data2 = some e
      ∧ dictGet? e "doc_lang" = some (Value.str "ngerman")) := by
  have hdeen : (("de" : String) == "en") = false := by decide
  have hnedc : ("doc_lang" : String) ≠ "company" := by decide
  have hnelc : ("lang" : String) ≠ "company" := by decide
  have hen : main_localize data
      = some (dictSet (dictSet (dictUpdate data m) "lang" (Value.str "en"))
          "doc_lang" (Value.str "english")) := by
    simp [main_localize, dictGetD, h1, h2]
  have hde : main_localize data2
      = some (dictSet (dictSet (dictUpdate data2 m2) "lang" (Value.str "de"))
          "doc_lang" (Value.str "ngerman")) := by
    simp [main_localize, dictGetD, g1, g2, hdeen]
  refine ⟨⟨_, hen, ?_, ?_⟩, ⟨_, hde, ?_⟩⟩
  · rw [dictGet?_set_ne _ "doc_lang" "company" _ hnedc,
      dictGet?_set_ne _ "lang" "company" _ hnelc]
    exact dictGet?_update_mem m data "company" (Value.str "Acme") hnd h3
  · exact dictGet?_set_self _ "doc_lang" _
  · exact dictGet?_set_self _ "doc_lang" _

/-- Closed witness for `localization_merge` on concrete configurations. -/
theorem localization_merge_witness :
    (∃ d, main_localize
        [("language", Value.str "en"),
         ("en", Value.map [("company", Value.str "Acme")])] = some d
      ∧ dictGet? d "company" = some (Value.str "Acme")
      ∧ dictGet? d "doc_lang" = some (Value.str "english"))
    ∧ (∃ e, main_localize
        [("language", Value.str "de"), ("de", Value.map [])] = some e
      ∧ dictGet? e "doc_lang" = some (Value.str "ngerman")) :=
  localization_merge
    [("language", Value.str "en"),
     ("en", Value.map [("company", Value.str "Acme")])]
    [("company", Value.str "Acme")]
    rfl rfl (by simp) rfl
    [("language", Value.str "de"), ("de", Value.map [])] []
    rfl rfl

/-- The attachment-validation loop of `main`: starting from an empty
list, each requested name whose file exists under `ATTACHMENT_DIR` is
appended; a miss only logs a warning. -/
def validate_attachments (existsOnDisk : String → Bool)
    (requested : List String) : List String :=
  requested.foldl
    (fun acc docName => if existsOnDisk docName then acc ++ [docName] else acc)
    []

/-- The surrounding assignment `data["attachments"] = valid_attachments`. -/
def main_attachments (existsOnDisk : String → Bool)
    (requested : List String) (data : Dict) : Dict :=
  dictSet data "attachments"
    (Value.list ((validate_attachments existsOnDisk requested).map Value.str))

/-- The validation fold is the order-preserving filter. -/
theorem validate_attachments_foldl (existsOnDisk : String → Bool)
    (requested : List String) : ∀ acc : List String,
    requested.foldl
        (fun acc docName =>
          if existsOnDisk docName then acc ++ [docName] else acc) acc
      = acc ++ requested.filter existsOnDisk := by
  induction requested with
  | nil => intro acc; simp
  | cons d ds ih =>
    intro acc
    cases hd : existsOnDisk d with
    | true => simp [List.filter_cons, hd, ih]
    | false => simp [List.filter_cons, hd, ih]

/-- C8: for every on-disk state and every requested list, the validated
attachment list is exactly the sub-sequence of the requested names that
exist on disk, in request order, and it is stored under the
`attachments` key; in particular, whenever `a.pdf` exists and `b.pdf`
does not, requesting `["a.pdf", "b.pdf"]` yields `["a.pdf"]`. -/
theorem attachments_filter (existsOnDisk : String → Bool)
    (requested : List String) (data : Dict) :
    validate_attachments existsOnDisk requested
        = requested.filter existsOnDisk
    ∧ List.Sublist (validate_attachments existsOnDisk requested) requested
    ∧ (∀ disk : String → Bool, disk "a.pdf" = true → disk "b.pdf" = false →
        validate_attachments disk ["a.pdf", "b.pdf"] = ["a.pdf"])
    ∧ dictGet? (main_attachments existsOnDisk requested data) "attachments"
        = some (Value.list ((requested.filter existsOnDisk).map Value.str)) := by
  have hfold := validate_attachments_foldl existsOnDisk requested []
  have heq : validate_attachments existsOnDisk requested
      = requested.filter existsOnDisk := by
    simpa [validate_attachments] using hfold
  refine ⟨heq, ?_, ?_, ?_⟩
  · rw [heq]; exact List.filter_sublist _
  · intro disk hA hB
    simp [validate_attachments, hA, hB]
  · rw [main_attachments, dictGet?_set_self, heq]

/-- Closed witness for `attachments_filter` with only `a.pdf` on disk. -/
theorem attachments_filter_witness :
    validate_attachments (fun s => s == "a.pdf") ["a.pdf", "b.pdf"]
        = (["a.pdf", "b.pdf"].filter fun s => s == "a.pdf")
    ∧ List.Sublist
        (validate_attachments (fun s => s == "a.pdf") ["a.pdf", "b.pdf"])
        ["a.pdf", "b.pdf"]
    ∧ validate_attachments (fun s => s == "a.pdf") ["a.pdf", "b.pdf"]
        = ["a.pdf"]
    ∧ dictGet? (main_attachments (fun s => s == "a.pdf")
          ["a.pdf", "b.pdf"] []) "attachments"
        = some (Value.list (((["a.pdf", "b.pdf"].filter
            fun s => s == "a.pdf").map Value.str))) :=
  have h := attachments_filter (fun s => s == "a.pdf") ["a.pdf", "b.pdf"] []
  ⟨h.1, h.2.1, h.2.2.1 (fun s => s == "a.pdf") rfl rfl, h.2.2.2⟩

/-- A pipeline stage of `main`, recorded when the corresponding block of
code runs. -/
inductive Stage where
  | errorLoadingData
  | localize
  | validateAttachments
  | loadContent
  | renderDoc (template : String)
  | compileDoc (tex : String)
  | archive
  | historyLog
deriving DecidableEq

/-- `load_config`: if the config file is missing, log and return `{}`;
otherwise return the YAML parse result (`none` models Python `None`
from an empty document, `some d` a parsed mapping). -/
def load_config (fileExists : Bool) (parsed : Option Dict) : Option Dict :=
  if fileExists then parsed else some []

/-- The four fixed (template, output) pairs of `docs_to_build`. -/
def docs_to_build : List (String × String) :=
  [("attachments.tex.j2", "attachments.tex"),
   ("cv.tex.j2", "cv.tex"),
   ("application_letter.tex.j2", "application_letter.tex"),
   ("main.tex.j2", "main.tex")]

/-- The stages `main` executes, as a function of the configuration
inputs: `data = load_config()`; `if not data:` log the error and return;
otherwise run localization, attachment validation, content loading, the
four render/compile iterations, archiving, and history logging. -/
def main_trace (fileExists : Bool) (parsed : Option Dict) : List Stage :=
  match load_config fileExists parsed with
  | none => [Stage.errorLoadingData]
  | some data =>
    if data.isEmpty then [Stage.errorLoadingData]
    else
      [Stage.localize, Stage.validateAttachments, Stage.loadContent]
      ++ (docs_to_build.map fun tp =>
            [Stage.renderDoc tp.1, Stage.compileDoc tp.2]).flatten
      ++ [Stage.archive, Stage.historyLog]

/-- C5: when the config file is missing or the configuration parses to
an empty/falsy mapping, `main` logs the error and returns at once: the
trace is exactly the error event, and no localization, rendering,
archiving or history logging occurs. -/
theorem fatal_config_abort (fileExists : Bool) (parsed : Option Dict)
    (h : fileExists = false ∨ parsed = none ∨ parsed = some []) :
    main_trace fileExists parsed = [Stage.errorLoadingData]
    ∧ Stage.localize ∉ main_trace fileExists parsed
    ∧ (∀ t, Stage.renderDoc t ∉ main_trace fileExists parsed)
    ∧ Stage.archive ∉ main_trace fileExists parsed
    ∧ Stage.historyLog ∉ main_trace fileExists parsed := by
  have h1 : main_trace fileExists parsed = [Stage.errorLoadingData] := by
    rcases h with h | h | h
    · subst h; simp [main_trace, load_config]
    · subst h; cases fileExists <;> simp [main_trace, load_config]
    · subst h; cases fileExists <;> simp [main_trace, load_config]
  rw [h1]
  refine ⟨rfl, by simp, fun t => by simp, by simp, by simp⟩

/-- Closed witness for `fatal_config_abort`: a present config file that
parses to the empty mapping. -/
theorem fatal_config_abort_witness :
    main_trace true (some []) = [Stage.errorLoadingData]
    ∧ Stage.localize ∉ main_trace true (some [])
    ∧ (∀ t, Stage.renderDoc t ∉ main_trace true (some []))
    ∧ Stage.archive ∉ main_trace true (some [])
    ∧ Stage.historyLog ∉ main_trace true (some []) :=
  fatal_config_abort true (some []) (Or.inr (Or.inr rfl))

end JobApp
